import Mathlib

/-!
Verification of the template-validation harness and template application code
of the repository (source of truth: `project-templates/test-templates.py`,
`project-templates/python-cli/.../simple.py`,
`project-templates/python-bayesian-experiment/.../db/store.py`).

The harness (`test-templates.py`) is straight-line subprocess orchestration.
We embed it as an executable trace semantics: an `Env` records, for every
external command the harness might run, the exit code (or probe outcome) the
outside world would answer with; the embedded commands compute the ordered
list of observable events (commands executed, success/warning messages,
background-process spawn and terminate-and-wait actions, rendered templates)
together with the process exit code, exactly following the Python control
flow (`run_with_output` raises on non-zero exit and the exception propagates
to the top level; the tolerant `make test` branch of the go validator and the
server probes only warn; the probe terminates and waits on the spawned
process in a `finally` block, so that action is part of the step on every
path).
-/

namespace LlmsRules

/-- Template keys of the `TEMPLATES` dict, in insertion order. -/
inductive TKey
  | go
  | python
  | cli
  | bayesian
deriving DecidableEq, Repr

/-- The keys in the order `TEMPLATES.keys()` yields them. -/
def allKeys : List TKey := [TKey.go, TKey.python, TKey.cli, TKey.bayesian]

/-- One validation step of a `validate_*` function:
`fg cmd msg` is a `run_with_output` call (raises on non-zero exit) followed by
`success msg`; `tolerant cmd okMsg warnMsg` is the go validator's bare
`subprocess.run` of `make test` whose failure only warns; `probe cmd port` is
the background-server probe (Popen, sleep, curl the health endpoint, then
terminate and wait in `finally`). -/
inductive Step
  | fg (cmd msg : String)
  | tolerant (cmd okMsg warnMsg : String)
  | probe (cmd : String) (port : Nat)
deriving DecidableEq, Repr

/-- Outcome of the probe's `curl` call: exit 0, non-zero exit, or an
exception (e.g. timeout). The Python code treats the last two identically. -/
inductive ProbeRes
  | ok
  | fail
  | exc
deriving DecidableEq, Repr

/-- The outside world: exit codes of foreground commands (per template
working directory), probe outcomes, and cookiecutter render exit codes. -/
structure Env where
  cmdExit : TKey → String → Nat
  probeRes : TKey → ProbeRes
  renderExit : TKey → Nat

/-- Observable events of one harness invocation, in order. -/
inductive Event
  | ran (k : TKey) (cmd : String)
  | okMsg (msg : String)
  | warnMsg (msg : String)
  | header (msg : String)
  | spawned (k : TKey) (cmd : String)
  | termWaited (k : TKey) (cmd : String)
  | rendered (k : TKey)
deriving DecidableEq, Repr

/-- Steps of `validate_go`, in source order. -/
def goSteps : List Step :=
  [Step.fg "make help" "make help works",
   Step.fg "go mod tidy" "go mod tidy works",
   Step.fg "make build" "make build works",
   Step.fg "./bin/test-go-service --help" "CLI --help works",
   Step.tolerant "make test" "make test works" "make test failed (may need database)",
   Step.probe "./bin/test-go-service server --addr :18080" 18080]

/-- Steps of `validate_python_service`, in source order. -/
def pythonSteps : List Step :=
  [Step.fg "make help" "make help works",
   Step.fg "uv sync --all-extras" "uv sync --all-extras works",
   Step.fg "uv run test-python-service --help" "CLI --help works",
   Step.fg "make test" "make test works",
   Step.fg "make lint" "make lint works",
   Step.probe "uv run uvicorn server.main:app --host 0.0.0.0 --port 18000" 18000]

/-- Steps of `validate_python_cli`, in source order. -/
def cliSteps : List Step :=
  [Step.fg "make help" "make help works",
   Step.fg "./simple.py --help" "simple.py --help works",
   Step.fg "./simple.py hello --name World" "simple.py hello works",
   Step.fg "./simple.py add 2 3" "simple.py add works",
   Step.fg "uv sync --all-extras" "uv sync --all-extras works",
   Step.fg "uv run test-cli --help" "test-cli --help works",
   Step.fg "uv run test-cli hello --name World" "test-cli hello works",
   Step.fg "uv run test-cli foo do-something --verbose" "test-cli foo do-something works",
   Step.fg "uv run test-cli bar greet World --count 2" "test-cli bar greet works",
   Step.fg "make test" "make test works",
   Step.fg "make lint" "make lint works"]

/-- Steps of `validate_bayesian`, in source order. -/
def bayesianSteps : List Step :=
  [Step.fg "make help" "make help works",
   Step.fg "uv sync --all-extras" "uv sync --all-extras works",
   Step.fg "uv run test-bayesian --help" "CLI --help works",
   Step.fg "uv run test-bayesian experiments --help" "CLI experiments --help works",
   Step.fg "make test" "make test works",
   Step.fg "make lint" "make lint works",
   Step.probe "uv run uvicorn test_bayesian.server.main:app --host 0.0.0.0 --port 18001" 18001]

/-- The `VALIDATORS` table: step list per template key. -/
def steps : TKey → List Step
  | TKey.go => goSteps
  | TKey.python => pythonSteps
  | TKey.cli => cliSteps
  | TKey.bayesian => bayesianSteps

/-- The `section(...)` title each validator prints first. -/
def sectionTitle : TKey → String
  | TKey.go => "Validating go-service"
  | TKey.python => "Validating python-service"
  | TKey.cli => "Validating python-cli"
  | TKey.bayesian => "Validating python-bayesian-experiment"

/-- The final `success(...)` message of each validator. -/
def doneMsg : TKey → String
  | TKey.go => "go-service validation complete"
  | TKey.python => "python-service validation complete"
  | TKey.cli => "python-cli validation complete"
  | TKey.bayesian => "python-bayesian-experiment validation complete"

/-- Run one step: events it emits and whether it aborts the validator
(an uncaught `CalledProcessError` from `run_with_output`). -/
def runStep (env : Env) (k : TKey) : Step → List Event × Bool
  | Step.fg c m =>
      if env.cmdExit k c = 0 then ([Event.ran k c, Event.okMsg m], false)
      else ([Event.ran k c], true)
  | Step.tolerant c okM warnM =>
      if env.cmdExit k c = 0 then ([Event.ran k c, Event.okMsg okM], false)
      else ([Event.ran k c, Event.warnMsg warnM], false)
  | Step.probe c _ =>
      ([Event.spawned k c] ++
        (match env.probeRes k with
         | ProbeRes.ok => [Event.okMsg "Server responds to /healthz"]
         | ProbeRes.fail => [Event.warnMsg "Server health check failed"]
         | ProbeRes.exc => [Event.warnMsg "Server health check failed"]) ++
        [Event.termWaited k c], false)

/-- Run a list of steps in order, stopping at the first aborting step. -/
def runSteps (env : Env) (k : TKey) : List Step → List Event × Bool
  | [] => ([], false)
  | s :: rest =>
      let r := runStep env k s
      if r.2 then (r.1, true)
      else
        let r2 := runSteps env k rest
        (r.1 ++ r2.1, r2.2)

/-- Run a whole `validate_*` function: the section header, the steps, and
the closing success message when no step aborted. -/
def runValidator (env : Env) (k : TKey) : List Event × Bool :=
  let r := runSteps env k (steps k)
  (Event.header (sectionTitle k) ::
     (r.1 ++ (if r.2 then [] else [Event.okMsg (doneMsg k)])), r.2)

/-- Run the validators of the selected keys in order, stopping at the first
fatal failure (the exception propagates out of the `validate` command). -/
def runValidators (env : Env) : List TKey → List Event × Bool
  | [] => ([], false)
  | k :: rest =>
      let r := runValidator env k
      if r.2 then (r.1, true)
      else
        let r2 := runValidators env rest
        (r.1 ++ r2.1, r2.2)

/-- `generate_template`: a `rendered` event on success; a failure raises
(cookiecutter run with `check=True`). -/
def renderTemplate (env : Env) (k : TKey) : List Event × Bool :=
  if env.renderExit k = 0 then ([Event.rendered k], false) else ([], true)

/-- Render the selected keys in order, stopping at the first render error. -/
def runRenders (env : Env) : List TKey → List Event × Bool
  | [] => ([], false)
  | k :: rest =>
      let r := renderTemplate env k
      if r.2 then (r.1, true)
      else
        let r2 := runRenders env rest
        (r.1 ++ r2.1, r2.2)

/-- The template list of a `validate`/`generate` invocation:
`[only] if only else list(TEMPLATES.keys())`. -/
def selected : Option TKey → List TKey
  | some k => [k]
  | none => allKeys

/-- The final banner `section("All validations passed!")`. -/
def banner : Event := Event.header "All validations passed!"

/-- The `validate` command: render everything first, then validate each
selected template, then print the banner when more than one template was
selected; exit code 0 on full success and 1 when an exception escaped. -/
def validateCmd (env : Env) (only : Option TKey) : List Event × Nat :=
  let sel := selected only
  let r := runRenders env sel
  if r.2 then (r.1, 1)
  else
    let v := runValidators env sel
    if v.2 then (r.1 ++ v.1, 1)
    else (r.1 ++ v.1 ++ (if 1 < sel.length then [banner] else []), 0)

/-- A step succeeds as far as fatality is concerned: `fg` steps need exit
code 0, tolerant steps and probes never abort. -/
def stepOkB (env : Env) (k : TKey) : Step → Bool
  | Step.fg c _ => env.cmdExit k c == 0
  | Step.tolerant _ _ _ => true
  | Step.probe _ _ => true

/-- All steps of a list are non-fatal under `env`. -/
def stepsOkB (env : Env) (k : TKey) (ss : List Step) : Bool :=
  ss.all (stepOkB env k)

/-- Every required (foreground) step of template `k` succeeds. -/
def requiredOkB (env : Env) (k : TKey) : Bool :=
  stepsOkB env k (steps k)

/-- Every selected render succeeds. -/
def rendersOkB (env : Env) (sel : List TKey) : Bool :=
  sel.all (fun k => env.renderExit k == 0)

/-- The command (if any) a step executes in the foreground. -/
def stepCmd : Step → Option String
  | Step.fg c _ => some c
  | Step.tolerant c _ _ => some c
  | Step.probe _ _ => none

/-!
The `clean` command. We model the filesystem by what `clean` can observe and
change: whether the output root `_test-output` exists, the entries below it,
and the rest of the filesystem which `shutil.rmtree(OUTPUT_DIR)` never
touches.
-/

/-- Filesystem state as seen by the `clean` command. -/
structure FS where
  outputRootExists : Bool
  outputEntries : List String
  elsewhere : List String
deriving DecidableEq, Repr

/-- The `clean` command: remove the output root if it exists; always
return exit code 0. -/
def cleanCmd (fs : FS) : FS × Nat :=
  if fs.outputRootExists then
    ({ fs with outputRootExists := false, outputEntries := [] }, 0)
  else (fs, 0)

/-!
The python-cli template's single-file script `simple.py`: its `hello`
subcommand echoes the formatted greeting built from the `--name` option,
whose click default is `world`.
-/

/-- Default of the `--name` option of `simple.py hello`. -/
def helloDefaultName : String := "world"

/-- What `simple.py hello --name N` prints (the f-string
interpolating the name between the greeting and the bang). -/
def helloOutput (name : String) : String := "Hello, " ++ name ++ "!"

/-!
The bayesian template's in-memory `ExperimentStore`
(`db/store.py`): a Python dict keyed by experiment name, embedded as the
insertion-ordered list of its values (each value carries its own key as the
`name` field, exactly as `save_experiment` stores it).
-/

/-- `Literal["bernoulli", "ab_test"]`. -/
inductive ExpType
  | bernoulli
  | abTest
deriving DecidableEq, Repr

/-- `DataPoint` of `schemas.py`; the `float` value is modeled as a
rational number. -/
structure DataPoint where
  timestamp : String
  variant : String
  outcome : Bool
  value : Option ℚ
deriving DecidableEq, Repr

/-- `Experiment` of `schemas.py`. -/
structure Experiment where
  name : String
  type : ExpType
  description : String
  data : List DataPoint
deriving DecidableEq, Repr

/-- The dict `self._experiments`, as its values in insertion order. -/
abbrev ExperimentStore := List Experiment

/-- `list_experiments`: `list(self._experiments.values())`. -/
def listExperiments (s : ExperimentStore) : List Experiment := s

/-- `get_experiment`: `self._experiments.get(name)`. -/
def getExperiment (s : ExperimentStore) (n : String) : Option Experiment :=
  List.find? (fun e => e.name == n) s

/-- `save_experiment`: `self._experiments[experiment.name] = experiment` —
update in place when the key is present, append otherwise. -/
def saveExperiment (s : ExperimentStore) (e : Experiment) : ExperimentStore :=
  if List.any s (fun x => x.name == e.name) then
    List.map (fun x => if x.name == e.name then e else x) s
  else s ++ [e]

/-- `delete_experiment`: delete the binding and return True when the name
is present, otherwise return False. -/
def deleteExperiment (s : ExperimentStore) (n : String) : ExperimentStore × Bool :=
  if List.any s (fun x => x.name == n) then
    (List.filter (fun x => !(x.name == n)) s, true)
  else (s, false)

/-!
Concrete environments and store contents used to instantiate the theorems
below on closed inputs.
-/

/-- A world where every external command succeeds. -/
def envAllOk : Env :=
  { cmdExit := fun _ _ => 0,
    probeRes := fun _ => ProbeRes.ok,
    renderExit := fun _ => 0 }

/-- A world where the packaged CLI's test suite fails for the cli template
and everything else succeeds. -/
def envCliTestFail : Env :=
  { cmdExit := fun k c => if k = TKey.cli ∧ c = "make test" then 2 else 0,
    probeRes := fun _ => ProbeRes.ok,
    renderExit := fun _ => 0 }

/-- A world where rendering the python-service template fails. -/
def envRenderFail : Env :=
  { cmdExit := fun _ _ => 0,
    probeRes := fun _ => ProbeRes.ok,
    renderExit := fun k => if k = TKey.python then 1 else 0 }

/-- A world where every health probe fails but every command succeeds. -/
def envProbeFail : Env :=
  { cmdExit := fun _ _ => 0,
    probeRes := fun _ => ProbeRes.fail,
    renderExit := fun _ => 0 }

/-- A sample experiment named `a`. -/
def expA : Experiment :=
  { name := "a", type := ExpType.bernoulli, description := "", data := [] }

/-- A sample experiment named `b`. -/
def expB : Experiment :=
  { name := "b", type := ExpType.abTest, description := "other", data := [] }

/-!
Helper lemmas about the harness semantics.
-/

theorem runStep_snd (env : Env) (k : TKey) (s : Step) :
    (runStep env k s).2 = !stepOkB env k s := by
  cases s with
  | fg c m => by_cases h : env.cmdExit k c = 0 <;> simp [runStep, stepOkB, h]
  | tolerant c a b => by_cases h : env.cmdExit k c = 0 <;> simp [runStep, stepOkB, h]
  | probe c p => cases hp : env.probeRes k <;> simp [runStep, stepOkB, hp]

theorem runSteps_snd (env : Env) (k : TKey) (ss : List Step) :
    (runSteps env k ss).2 = !stepsOkB env k ss := by
  induction ss with
  | nil => rfl
  | cons s rest ih =>
    simp only [runSteps, stepsOkB, List.all_cons]
    rw [runStep_snd]
    cases h : stepOkB env k s <;> simp [ih, stepsOkB]

theorem renderTemplate_snd (env : Env) (k : TKey) :
    (renderTemplate env k).2 = !(env.renderExit k == 0) := by
  by_cases h : env.renderExit k = 0 <;> simp [renderTemplate, h]

theorem runRenders_snd (env : Env) (sel : List TKey) :
    (runRenders env sel).2 = !rendersOkB env sel := by
  induction sel with
  | nil => rfl
  | cons k rest ih =>
    simp only [runRenders, rendersOkB, List.all_cons]
    rw [renderTemplate_snd]
    cases h : (env.renderExit k == 0) <;> simp [ih, rendersOkB]

theorem runValidator_snd (env : Env) (k : TKey) :
    (runValidator env k).2 = !requiredOkB env k := by
  simp [runValidator, runSteps_snd, requiredOkB]

theorem runValidators_snd (env : Env) (sel : List TKey) :
    (runValidators env sel).2 = !(sel.all (requiredOkB env)) := by
  induction sel with
  | nil => rfl
  | cons k rest ih =>
    simp only [runValidators, List.all_cons]
    rw [runValidator_snd]
    cases h : requiredOkB env k <;> simp [ih]

theorem validateCmd_snd (env : Env) (only : Option TKey) :
    (validateCmd env only).2 =
      if rendersOkB env (selected only) && (selected only).all (requiredOkB env)
      then 0 else 1 := by
  cases hr : rendersOkB env (selected only) <;>
    cases hv : (selected only).all (requiredOkB env) <;>
      simp [validateCmd, runRenders_snd, runValidators_snd, hr, hv]

theorem header_not_mem_runStep (env : Env) (k : TKey) (s : Step) (m : String) :
    Event.header m ∉ (runStep env k s).1 := by
  cases s with
  | fg c msg => by_cases h : env.cmdExit k c = 0 <;> simp [runStep, h]
  | tolerant c a b => by_cases h : env.cmdExit k c = 0 <;> simp [runStep, h]
  | probe c p => cases hp : env.probeRes k <;> simp [runStep, hp]

theorem header_not_mem_runSteps (env : Env) (k : TKey) (ss : List Step) (m : String) :
    Event.header m ∉ (runSteps env k ss).1 := by
  induction ss with
  | nil => simp [runSteps]
  | cons s rest ih =>
    simp only [runSteps]
    by_cases h : (runStep env k s).2 = true <;>
      simp [h, List.mem_append, header_not_mem_runStep, ih]

theorem header_mem_runValidator (env : Env) (k : TKey) (m : String) :
    Event.header m ∈ (runValidator env k).1 → m = sectionTitle k := by
  intro hm
  simp only [runValidator, List.mem_cons, List.mem_append] at hm
  rcases hm with h | h | h
  · exact (Event.header.injEq ..).mp h
  · exact absurd h (header_not_mem_runSteps env k (steps k) m)
  · by_cases hab : (runSteps env k (steps k)).2 = true <;> simp [hab] at h

theorem header_mem_runValidators (env : Env) (sel : List TKey) (m : String) :
    Event.header m ∈ (runValidators env sel).1 → ∃ k ∈ sel, m = sectionTitle k := by
  induction sel with
  | nil => simp [runValidators]
  | cons k rest ih =>
    intro hm
    simp only [runValidators] at hm
    cases hab : (runValidator env k).2 with
    | true =>
      rw [hab] at hm
      simp only [if_true] at hm
      exact ⟨k, List.mem_cons_self _ _, header_mem_runValidator env k m hm⟩
    | false =>
      rw [hab] at hm
      simp only [Bool.false_eq_true, if_false, List.mem_append] at hm
      cases hm with
      | inl h1 => exact ⟨k, List.mem_cons_self _ _, header_mem_runValidator env k m h1⟩
      | inr h2 =>
        obtain ⟨j, hj, hjm⟩ := ih h2
        exact ⟨j, List.mem_cons_of_mem _ hj, hjm⟩

theorem mem_runRenders (env : Env) (sel : List TKey) (e : Event) :
    e ∈ (runRenders env sel).1 → ∃ k ∈ sel, e = Event.rendered k := by
  induction sel with
  | nil => simp [runRenders]
  | cons k rest ih =>
    intro hm
    simp only [runRenders] at hm
    by_cases h : env.renderExit k = 0
    · rw [show renderTemplate env k = ([Event.rendered k], false) by
        simp [renderTemplate, h]] at hm
      simp only [Bool.false_eq_true, if_false, List.mem_append, List.mem_singleton] at hm
      cases hm with
      | inl h1 => exact ⟨k, List.mem_cons_self _ _, h1⟩
      | inr h2 =>
        obtain ⟨j, hj, hje⟩ := ih h2
        exact ⟨j, List.mem_cons_of_mem _ hj, hje⟩
    · rw [show renderTemplate env k = ([], true) by simp [renderTemplate, h]] at hm
      simp only [if_true] at hm
      simp at hm

theorem runSteps_cons_abort (env : Env) (k : TKey) (s : Step) (rest : List Step)
    (h : (runStep env k s).2 = true) :
    runSteps env k (s :: rest) = ((runStep env k s).1, true) := by
  simp [runSteps, h]

theorem runSteps_cons_ok (env : Env) (k : TKey) (s : Step) (rest : List Step)
    (h : (runStep env k s).2 = false) :
    runSteps env k (s :: rest) =
      ((runStep env k s).1 ++ (runSteps env k rest).1, (runSteps env k rest).2) := by
  simp [runSteps, h]

theorem runSteps_fst_cons_abort (env : Env) (k : TKey) (s : Step) (rest : List Step)
    (h : (runStep env k s).2 = true) :
    (runSteps env k (s :: rest)).1 = (runStep env k s).1 := by
  simp [runSteps, h]

theorem runSteps_fst_cons_ok (env : Env) (k : TKey) (s : Step) (rest : List Step)
    (h : (runStep env k s).2 = false) :
    (runSteps env k (s :: rest)).1 = (runStep env k s).1 ++ (runSteps env k rest).1 := by
  simp [runSteps, h]

theorem runValidators_fst_cons_abort (env : Env) (k : TKey) (rest : List TKey)
    (h : (runValidator env k).2 = true) :
    (runValidators env (k :: rest)).1 = (runValidator env k).1 := by
  simp [runValidators, h]

theorem runValidators_fst_cons_ok (env : Env) (k : TKey) (rest : List TKey)
    (h : (runValidator env k).2 = false) :
    (runValidators env (k :: rest)).1 =
      (runValidator env k).1 ++ (runValidators env rest).1 := by
  simp [runValidators, h]

theorem runSteps_append_ok (env : Env) (k : TKey) (pre rest : List Step)
    (h : stepsOkB env k pre = true) :
    runSteps env k (pre ++ rest) =
      ((runSteps env k pre).1 ++ (runSteps env k rest).1, (runSteps env k rest).2) := by
  induction pre with
  | nil => simp [runSteps]
  | cons s pre ih =>
    simp only [stepsOkB, List.all_cons, Bool.and_eq_true] at h
    have hs : (runStep env k s).2 = false := by rw [runStep_snd, h.1]; rfl
    rw [List.cons_append, runSteps_cons_ok env k s (pre ++ rest) hs, ih h.2,
        runSteps_cons_ok env k s pre hs]
    simp [List.append_assoc]

theorem okMsg_mem_runSteps_of_fg (env : Env) (k : TKey) (pre : List Step)
    (c m : String) (hok : stepsOkB env k pre = true) (hmem : Step.fg c m ∈ pre) :
    Event.okMsg m ∈ (runSteps env k pre).1 := by
  induction pre with
  | nil => simp at hmem
  | cons s pre ih =>
    simp only [stepsOkB, List.all_cons, Bool.and_eq_true] at hok
    have hs : (runStep env k s).2 = false := by rw [runStep_snd, hok.1]; rfl
    rw [runSteps_cons_ok env k s pre hs]
    simp only [List.mem_append]
    rcases List.mem_cons.mp hmem with he | hin
    · left
      have hc : env.cmdExit k c = 0 := by
        have h1 := hok.1
        rw [← he] at h1
        simpa [stepOkB] using h1
      rw [← he]
      simp [runStep, hc]
    · right
      exact ih hok.2 hin

theorem ran_mem_runStep (env : Env) (k j : TKey) (s : Step) (c : String)
    (h : Event.ran j c ∈ (runStep env k s).1) : j = k ∧ stepCmd s = some c := by
  cases s with
  | fg c' m =>
    by_cases hc : env.cmdExit k c' = 0 <;>
    · simp [runStep, hc] at h
      exact ⟨h.1, by simp [stepCmd, h.2]⟩
  | tolerant c' a b =>
    by_cases hc : env.cmdExit k c' = 0 <;>
    · simp [runStep, hc] at h
      exact ⟨h.1, by simp [stepCmd, h.2]⟩
  | probe c' p => cases hp : env.probeRes k <;> simp [runStep, hp] at h

theorem ran_mem_runSteps (env : Env) (k j : TKey) (c : String) (ss : List Step)
    (h : Event.ran j c ∈ (runSteps env k ss).1) : ∃ s ∈ ss, stepCmd s = some c := by
  induction ss with
  | nil => simp [runSteps] at h
  | cons s rest ih =>
    cases hab : (runStep env k s).2 with
    | true =>
      rw [runSteps_cons_abort env k s rest hab] at h
      exact ⟨s, List.mem_cons_self _ _, (ran_mem_runStep env k j s c h).2⟩
    | false =>
      rw [runSteps_cons_ok env k s rest hab] at h
      simp only [List.mem_append] at h
      cases h with
      | inl h1 => exact ⟨s, List.mem_cons_self _ _, (ran_mem_runStep env k j s c h1).2⟩
      | inr h2 =>
        obtain ⟨t, ht, hct⟩ := ih h2
        exact ⟨t, List.mem_cons_of_mem _ ht, hct⟩

theorem spawned_runStep (env : Env) (k j : TKey) (s : Step) (c : String)
    (h : Event.spawned j c ∈ (runStep env k s).1) :
    Event.termWaited j c ∈ (runStep env k s).1 := by
  cases s with
  | fg c' m => by_cases hc : env.cmdExit k c' = 0 <;> simp [runStep, hc] at h
  | tolerant c' a b => by_cases hc : env.cmdExit k c' = 0 <;> simp [runStep, hc] at h
  | probe c' p =>
    cases hp : env.probeRes k <;> simp [runStep, hp] at h ⊢ <;> exact h

theorem spawned_runSteps (env : Env) (k j : TKey) (c : String) (ss : List Step)
    (h : Event.spawned j c ∈ (runSteps env k ss).1) :
    Event.termWaited j c ∈ (runSteps env k ss).1 := by
  induction ss with
  | nil => simp [runSteps] at h
  | cons s rest ih =>
    cases hab : (runStep env k s).2 with
    | true =>
      rw [runSteps_cons_abort env k s rest hab] at h ⊢
      exact spawned_runStep env k j s c h
    | false =>
      rw [runSteps_cons_ok env k s rest hab] at h ⊢
      simp only [List.mem_append] at h ⊢
      cases h with
      | inl h1 => exact Or.inl (spawned_runStep env k j s c h1)
      | inr h2 => exact Or.inr (ih h2)

theorem spawned_runValidator (env : Env) (k j : TKey) (c : String)
    (h : Event.spawned j c ∈ (runValidator env k).1) :
    Event.termWaited j c ∈ (runValidator env k).1 := by
  simp only [runValidator, List.mem_cons, List.mem_append] at h ⊢
  rcases h with h | h | h
  · exact absurd h (by simp)
  · exact Or.inr (Or.inl (spawned_runSteps env k j c (steps k) h))
  · by_cases hab : (runSteps env k (steps k)).2 = true <;> simp [hab] at h

theorem spawned_runValidators (env : Env) (j : TKey) (c : String) (sel : List TKey)
    (h : Event.spawned j c ∈ (runValidators env sel).1) :
    Event.termWaited j c ∈ (runValidators env sel).1 := by
  induction sel with
  | nil => simp [runValidators] at h
  | cons k rest ih =>
    cases hab : (runValidator env k).2 with
    | true =>
      rw [runValidators_fst_cons_abort env k rest hab] at h ⊢
      exact spawned_runValidator env k j c h
    | false =>
      rw [runValidators_fst_cons_ok env k rest hab] at h ⊢
      simp only [List.mem_append] at h ⊢
      cases h with
      | inl h1 => exact Or.inl (spawned_runValidator env k j c h1)
      | inr h2 => exact Or.inr (ih h2)

theorem rendered_not_mem_runStep (env : Env) (k j : TKey) (s : Step) :
    Event.rendered j ∉ (runStep env k s).1 := by
  cases s with
  | fg c m => by_cases hc : env.cmdExit k c = 0 <;> simp [runStep, hc]
  | tolerant c a b => by_cases hc : env.cmdExit k c = 0 <;> simp [runStep, hc]
  | probe c p => cases hp : env.probeRes k <;> simp [runStep, hp]

theorem rendered_not_mem_runSteps (env : Env) (k j : TKey) (ss : List Step) :
    Event.rendered j ∉ (runSteps env k ss).1 := by
  induction ss with
  | nil => simp [runSteps]
  | cons s rest ih =>
    cases hab : (runStep env k s).2 with
    | true =>
      rw [runSteps_cons_abort env k s rest hab]
      exact rendered_not_mem_runStep env k j s
    | false =>
      rw [runSteps_cons_ok env k s rest hab]
      simp only [List.mem_append, not_or]
      exact ⟨rendered_not_mem_runStep env k j s, ih⟩

theorem rendered_not_mem_runValidator (env : Env) (k j : TKey) :
    Event.rendered j ∉ (runValidator env k).1 := by
  simp only [runValidator, List.mem_cons, List.mem_append, not_or]
  refine ⟨by simp, rendered_not_mem_runSteps env k j (steps k), ?_⟩
  by_cases hab : (runSteps env k (steps k)).2 = true <;> simp [hab]

theorem rendered_not_mem_runValidators (env : Env) (j : TKey) (sel : List TKey) :
    Event.rendered j ∉ (runValidators env sel).1 := by
  induction sel with
  | nil => simp [runValidators]
  | cons k rest ih =>
    cases hab : (runValidator env k).2 with
    | true =>
      rw [runValidators_fst_cons_abort env k rest hab]
      exact rendered_not_mem_runValidator env k j
    | false =>
      rw [runValidators_fst_cons_ok env k rest hab]
      simp only [List.mem_append, not_or]
      exact ⟨rendered_not_mem_runValidator env k j, ih⟩

theorem runRenders_ok (env : Env) (sel : List TKey)
    (h : rendersOkB env sel = true) :
    runRenders env sel = (sel.map Event.rendered, false) := by
  induction sel with
  | nil => rfl
  | cons k rest ih =>
    simp only [rendersOkB, List.all_cons, Bool.and_eq_true, beq_iff_eq] at h
    simp [runRenders, renderTemplate, h.1, ih h.2]

theorem validateCmd_eq_renderAbort (env : Env) (only : Option TKey)
    (h : rendersOkB env (selected only) = false) :
    validateCmd env only = ((runRenders env (selected only)).1, 1) := by
  have h2 : (runRenders env (selected only)).2 = true := by
    rw [runRenders_snd, h]; rfl
  simp [validateCmd, h2]

theorem validateCmd_eq_valAbort (env : Env) (only : Option TKey)
    (hr : rendersOkB env (selected only) = true)
    (hv : (selected only).all (requiredOkB env) = false) :
    validateCmd env only =
      ((selected only).map Event.rendered ++ (runValidators env (selected only)).1,
       1) := by
  have h2 : (runRenders env (selected only)).2 = false := by
    rw [runRenders_snd, hr]; rfl
  have h3 : (runValidators env (selected only)).2 = true := by
    rw [runValidators_snd, hv]; rfl
  simp [validateCmd, h2, h3, runRenders_ok env _ hr]

theorem validateCmd_eq_ok (env : Env) (only : Option TKey)
    (hr : rendersOkB env (selected only) = true)
    (hv : (selected only).all (requiredOkB env) = true) :
    validateCmd env only =
      ((selected only).map Event.rendered ++ (runValidators env (selected only)).1 ++
        (if 1 < (selected only).length then [banner] else []), 0) := by
  have h2 : (runRenders env (selected only)).2 = false := by
    rw [runRenders_snd, hr]; rfl
  have h3 : (runValidators env (selected only)).2 = false := by
    rw [runValidators_snd, hv]; rfl
  simp [validateCmd, h2, h3, runRenders_ok env _ hr]

theorem validateCmd_snd_probe_independent (env : Env) (p : TKey → ProbeRes)
    (only : Option TKey) :
    (validateCmd { env with probeRes := p } only).2 = (validateCmd env only).2 := by
  rw [validateCmd_snd, validateCmd_snd]
  rfl

theorem runValidator_fst_abort (env : Env) (k : TKey)
    (h : (runSteps env k (steps k)).2 = true) :
    (runValidator env k).1 =
      Event.header (sectionTitle k) :: (runSteps env k (steps k)).1 := by
  simp [runValidator, h]

theorem sectionTitle_ne_banner (k : TKey) :
    sectionTitle k ≠ "All validations passed!" := by
  cases k <;> decide

theorem banner_mem_validateCmd (env : Env) (only : Option TKey) :
    banner ∈ (validateCmd env only).1 ↔
      1 < (selected only).length ∧ (validateCmd env only).2 = 0 := by
  cases hr : rendersOkB env (selected only) with
  | false =>
    rw [validateCmd_eq_renderAbort env only hr]
    constructor
    · intro hb
      obtain ⟨j, _, hj⟩ := mem_runRenders env (selected only) banner hb
      exact absurd hj (by simp [banner])
    · intro hc
      exact absurd hc.2 one_ne_zero
  | true =>
    cases hv : (selected only).all (requiredOkB env) with
    | false =>
      rw [validateCmd_eq_valAbort env only hr hv]
      constructor
      · intro hb
        simp only [List.mem_append] at hb
        cases hb with
        | inl h1 =>
          obtain ⟨j, _, hj⟩ := List.mem_map.mp h1
          exact absurd hj.symm (by simp [banner])
        | inr h2 =>
          obtain ⟨j, _, hj⟩ := header_mem_runValidators env (selected only) _ h2
          exact absurd hj.symm (sectionTitle_ne_banner j)
      · intro hc
        exact absurd hc.2 one_ne_zero
    | true =>
      rw [validateCmd_eq_ok env only hr hv]
      by_cases hlen : 1 < (selected only).length
      · rw [if_pos hlen]
        constructor
        · intro _
          exact ⟨hlen, rfl⟩
        · intro _
          simp
      · rw [if_neg hlen, List.append_nil]
        constructor
        · intro hb
          simp only [List.mem_append] at hb
          cases hb with
          | inl h1 =>
            obtain ⟨j, _, hj⟩ := List.mem_map.mp h1
            exact absurd hj.symm (by simp [banner])
          | inr h2 =>
            obtain ⟨j, _, hj⟩ := header_mem_runValidators env (selected only) _ h2
            exact absurd hj.symm (sectionTitle_ne_banner j)
        · intro hc
          exact absurd hc.1 hlen

theorem runSteps_fst_append_ok (env : Env) (k : TKey) (pre rest : List Step)
    (h : stepsOkB env k pre = true) :
    (runSteps env k (pre ++ rest)).1 =
      (runSteps env k pre).1 ++ (runSteps env k rest).1 := by
  rw [runSteps_append_ok env k pre rest h]

/-!
Helper lemmas about the experiment store.
-/

theorem find?_name_filter_ne (s : List Experiment) (n m : String) (hmn : m ≠ n) :
    List.find? (fun e => e.name == m) (List.filter (fun x => !(x.name == n)) s) =
      List.find? (fun e => e.name == m) s := by
  induction s with
  | nil => rfl
  | cons a t ih =>
    by_cases ha : a.name = n
    · rw [List.filter_cons_of_neg (by simp [ha]),
          List.find?_cons_of_neg _ (by simp [ha]; exact fun hm => hmn hm.symm)]
      exact ih
    · rw [List.filter_cons_of_pos (by simp [ha])]
      by_cases ham : a.name = m
      · rw [List.find?_cons_of_pos _ (by simp [ham]),
            List.find?_cons_of_pos _ (by simp [ham])]
      · rw [List.find?_cons_of_neg _ (by simp [ham]),
            List.find?_cons_of_neg _ (by simp [ham])]
        exact ih

theorem find?_name_filter_self (s : List Experiment) (n : String) :
    List.find? (fun e => e.name == n) (List.filter (fun x => !(x.name == n)) s) =
      none := by
  apply List.find?_eq_none.mpr
  intro x hx
  have hpx := (List.mem_filter.mp hx).2
  simp only [Bool.not_eq_true'] at hpx
  simp [hpx]

theorem find?_map_replace (s : List Experiment) (e : Experiment)
    (h : List.any s (fun x => x.name == e.name) = true) :
    List.find? (fun x => x.name == e.name)
      (List.map (fun x => if x.name == e.name then e else x) s) = some e := by
  induction s with
  | nil => simp at h
  | cons a t ih =>
    rw [List.map_cons]
    by_cases ha : a.name = e.name
    · rw [if_pos (by simp [ha]), List.find?_cons_of_pos _ (by simp)]
    · rw [if_neg (by simp [ha]), List.find?_cons_of_neg _ (by simp [ha])]
      apply ih
      simpa [ha] using h

theorem map_replace_of_not_any (s : List Experiment) (e : Experiment)
    (h : List.any s (fun x => x.name == e.name) = false) :
    List.map (fun x => if x.name == e.name then e else x) s = s := by
  induction s with
  | nil => rfl
  | cons a t ih =>
    simp only [List.any_cons, Bool.or_eq_false_iff] at h
    rw [List.map_cons, if_neg (by simp [h.1]), ih h.2]

theorem saveExperiment_of_any (s : ExperimentStore) (e : Experiment)
    (h : List.any s (fun x => x.name == e.name) = true) :
    saveExperiment s e = List.map (fun x => if x.name == e.name then e else x) s := by
  simp [saveExperiment, h]

theorem saveExperiment_of_not_any (s : ExperimentStore) (e : Experiment)
    (h : List.any s (fun x => x.name == e.name) = false) :
    saveExperiment s e = s ++ [e] := by
  simp [saveExperiment, h]

/-!
The claims.
-/

/-- C1: a `validate` invocation exits 0 exactly when, for every selected
template, the render and every required (foreground, non-warning) validation
step succeed; changing only the probe outcomes never changes the exit code. -/
theorem validate_exit_zero_iff_required (env : Env) (only : Option TKey) :
    ((validateCmd env only).2 = 0 ↔
      ∀ k ∈ selected only, env.renderExit k = 0 ∧ requiredOkB env k = true) ∧
    ∀ p : TKey → ProbeRes,
      (validateCmd { env with probeRes := p } only).2 = (validateCmd env only).2 := by
  refine ⟨?_, fun p => validateCmd_snd_probe_independent env p only⟩
  rw [validateCmd_snd]
  by_cases hb : (rendersOkB env (selected only) &&
      (selected only).all (requiredOkB env)) = true
  · rw [if_pos hb]
    simp only [Bool.and_eq_true, rendersOkB, List.all_eq_true, beq_iff_eq] at hb
    exact ⟨fun _ k hk => ⟨hb.1 k hk, hb.2 k hk⟩, fun _ => rfl⟩
  · rw [if_neg hb]
    constructor
    · intro h01
      exact absurd h01 one_ne_zero
    · intro hall
      exfalso
      apply hb
      simp only [Bool.and_eq_true, rendersOkB, List.all_eq_true, beq_iff_eq]
      exact ⟨fun k hk => (hall k hk).1, fun k hk => (hall k hk).2⟩

/-- Witness for C1: in the all-success world the full `validate` run exits 0. -/
theorem validate_exit_zero_iff_required_witness :
    (validateCmd envAllOk none).2 = 0 :=
  (validate_exit_zero_iff_required envAllOk none).1.mpr (by decide)

/-- C2: when every selected render succeeds, the trace starts with all the
rendered templates in request order and no render happens afterwards; when
some selected render fails, the invocation exits 1 and the trace holds
nothing but render events, so no validation step has executed. -/
theorem validate_renders_first (env : Env) (only : Option TKey) :
    ((∀ k ∈ selected only, env.renderExit k = 0) →
      ∃ rest, (validateCmd env only).1 = (selected only).map Event.rendered ++ rest ∧
        ∀ j : TKey, Event.rendered j ∉ rest) ∧
    ((∃ k ∈ selected only, env.renderExit k ≠ 0) →
      (validateCmd env only).2 = 1 ∧
        ∀ e ∈ (validateCmd env only).1, ∃ j : TKey, e = Event.rendered j) := by
  constructor
  · intro hall
    have hr : rendersOkB env (selected only) = true := by
      simp only [rendersOkB, List.all_eq_true, beq_iff_eq]
      exact hall
    cases hv : (selected only).all (requiredOkB env) with
    | false =>
      rw [validateCmd_eq_valAbort env only hr hv]
      refine ⟨(runValidators env (selected only)).1, rfl, ?_⟩
      intro j
      exact rendered_not_mem_runValidators env j (selected only)
    | true =>
      rw [validateCmd_eq_ok env only hr hv]
      refine ⟨(runValidators env (selected only)).1 ++
        (if 1 < (selected only).length then [banner] else []), ?_, ?_⟩
      · simp [List.append_assoc]
      · intro j
        simp only [List.mem_append, not_or]
        refine ⟨rendered_not_mem_runValidators env j (selected only), ?_⟩
        by_cases hlen : 1 < (selected only).length
        · rw [if_pos hlen]
          simp [banner]
        · rw [if_neg hlen]
          simp
  · intro ⟨k, hk, hne⟩
    have hr : rendersOkB env (selected only) = false := by
      by_contra hcon
      rw [Bool.not_eq_false] at hcon
      simp only [rendersOkB, List.all_eq_true, beq_iff_eq] at hcon
      exact hne (hcon k hk)
    rw [validateCmd_eq_renderAbort env only hr]
    refine ⟨rfl, ?_⟩
    intro e he
    obtain ⟨j, _, hj⟩ := mem_runRenders env (selected only) e he
    exact ⟨j, hj⟩

/-- Witness for C2: all-success world renders everything first; a failing
python-service render exits 1 with only render events. -/
theorem validate_renders_first_witness :
    (∃ rest, (validateCmd envAllOk none).1 =
        (selected none).map Event.rendered ++ rest ∧
      ∀ j : TKey, Event.rendered j ∉ rest) ∧
    ((validateCmd envRenderFail none).2 = 1 ∧
      ∀ e ∈ (validateCmd envRenderFail none).1, ∃ j : TKey, e = Event.rendered j) :=
  ⟨(validate_renders_first envAllOk none).1 (by decide),
   (validate_renders_first envRenderFail none).2 ⟨TKey.python, by decide, by decide⟩⟩

/-- C3: a hard (foreground) step failure aborts the template's remaining
steps and the whole invocation exits non-zero, while every foreground step
declared before the failing one has been executed and reported as success;
any executed foreground command is either the failing one or one of the
preceding steps. -/
theorem validate_hard_failure_aborts (env : Env) (k : TKey) (pre : List Step)
    (c m : String) (post : List Step)
    (hsteps : steps k = pre ++ Step.fg c m :: post)
    (hpre : stepsOkB env k pre = true)
    (hfail : env.cmdExit k c ≠ 0)
    (hrender : env.renderExit k = 0) :
    (validateCmd env (some k)).2 = 1 ∧
    (∀ c' m', Step.fg c' m' ∈ pre →
      Event.okMsg m' ∈ (validateCmd env (some k)).1) ∧
    (∀ c₂, Event.ran k c₂ ∈ (validateCmd env (some k)).1 →
      c₂ = c ∨ ∃ s ∈ pre, stepCmd s = some c₂) := by
  have hstep2 : (runStep env k (Step.fg c m)).2 = true := by simp [runStep, hfail]
  have hreq : requiredOkB env k = false := by
    rw [requiredOkB, hsteps]
    simp only [stepsOkB, List.all_append, List.all_cons]
    have hx : stepOkB env k (Step.fg c m) = false := by simp [stepOkB, hfail]
    simp [hx]
  have hr : rendersOkB env (selected (some k)) = true := by
    simp [selected, rendersOkB, hrender]
  have hv : (selected (some k)).all (requiredOkB env) = false := by
    simp [selected, hreq]
  have habort : (runValidator env k).2 = true := by
    rw [runValidator_snd, hreq]; rfl
  have hsteps2 : (runSteps env k (steps k)).2 = true := by
    rw [runSteps_snd, show stepsOkB env k (steps k) = false from hreq]; rfl
  have hfgfst : (runSteps env k (Step.fg c m :: post)).1 = [Event.ran k c] := by
    rw [runSteps_fst_cons_abort env k _ post hstep2]
    simp [runStep, hfail]
  have hstepsfst : (runSteps env k (steps k)).1 =
      (runSteps env k pre).1 ++ [Event.ran k c] := by
    rw [hsteps, runSteps_fst_append_ok env k pre _ hpre, hfgfst]
  have htrace : (validateCmd env (some k)).1 =
      Event.rendered k :: Event.header (sectionTitle k) ::
        ((runSteps env k pre).1 ++ [Event.ran k c]) := by
    rw [validateCmd_eq_valAbort env (some k) hr hv]
    simp only [selected]
    rw [runValidators_fst_cons_abort env k [] habort,
        runValidator_fst_abort env k hsteps2, hstepsfst]
    simp
  refine ⟨?_, ?_, ?_⟩
  · rw [validateCmd_eq_valAbort env (some k) hr hv]
  · intro c' m' hmem
    rw [htrace]
    simp only [List.mem_cons, List.mem_append]
    exact Or.inr (Or.inr (Or.inl (okMsg_mem_runSteps_of_fg env k pre c' m' hpre hmem)))
  · intro c₂ hran
    rw [htrace] at hran
    simp only [List.mem_cons, List.mem_append, List.mem_singleton] at hran
    rcases hran with h1 | h1 | h1 | h1
    · exact absurd h1 (by simp)
    · exact absurd h1 (by simp)
    · exact Or.inr (ran_mem_runSteps env k k c₂ pre h1)
    · rcases h1 with h2 | h2
      · exact Or.inl (Event.ran.inj h2).2
      · simp at h2

/-- Witness for C3: with the cli test suite failing, `validate --only cli`
exits 1, the earlier simple.py help/hello/add steps are reported as success,
and the lint step never runs. -/
theorem validate_hard_failure_aborts_witness :
    (validateCmd envCliTestFail (some TKey.cli)).2 = 1 ∧
    Event.okMsg "simple.py --help works" ∈ (validateCmd envCliTestFail (some TKey.cli)).1 ∧
    Event.okMsg "simple.py hello works" ∈ (validateCmd envCliTestFail (some TKey.cli)).1 ∧
    Event.okMsg "simple.py add works" ∈ (validateCmd envCliTestFail (some TKey.cli)).1 ∧
    Event.ran TKey.cli "make lint" ∉ (validateCmd envCliTestFail (some TKey.cli)).1 := by
  obtain ⟨h1, h2, h3⟩ := validate_hard_failure_aborts envCliTestFail TKey.cli
    (List.take 9 (steps TKey.cli)) "make test" "make test works"
    [Step.fg "make lint" "make lint works"]
    (by decide) (by decide) (by decide) (by decide)
  refine ⟨h1, h2 "./simple.py --help" "simple.py --help works" (by decide),
    h2 "./simple.py hello --name World" "simple.py hello works" (by decide),
    h2 "./simple.py add 2 3" "simple.py add works" (by decide), ?_⟩
  intro hran
  rcases h3 "make lint" hran with hc | hex
  · exact absurd hc (by decide)
  · exact absurd hex (by decide)

/-- C4: whenever the harness spawned a background server process, the same
invocation's trace also terminates and waits on it; within the probe step
itself the terminate-and-wait action is the last event before returning,
whatever the probe outcome. -/
theorem probe_terminates_spawned (env : Env) (only : Option TKey) (j : TKey)
    (c : String) :
    (Event.spawned j c ∈ (validateCmd env only).1 →
      Event.termWaited j c ∈ (validateCmd env only).1) ∧
    ∀ p : Nat,
      (runStep env j (Step.probe c p)).1.getLast? = some (Event.termWaited j c) := by
  constructor
  · intro hs
    cases hr : rendersOkB env (selected only) with
    | false =>
      rw [validateCmd_eq_renderAbort env only hr] at hs ⊢
      obtain ⟨i, _, hi⟩ := mem_runRenders env (selected only) _ hs
      exact absurd hi (by simp)
    | true =>
      cases hv : (selected only).all (requiredOkB env) with
      | false =>
        rw [validateCmd_eq_valAbort env only hr hv] at hs ⊢
        simp only [List.mem_append] at hs ⊢
        cases hs with
        | inl h1 =>
          obtain ⟨i, _, hi⟩ := List.mem_map.mp h1
          exact absurd hi (by simp)
        | inr h2 => exact Or.inr (spawned_runValidators env j c (selected only) h2)
      | true =>
        rw [validateCmd_eq_ok env only hr hv] at hs ⊢
        simp only [List.mem_append] at hs ⊢
        rcases hs with (h1 | h2) | h3
        · obtain ⟨i, _, hi⟩ := List.mem_map.mp h1
          exact absurd hi (by simp)
        · exact Or.inl (Or.inr (spawned_runValidators env j c (selected only) h2))
        · exfalso
          by_cases hlen : 1 < (selected only).length
          · rw [if_pos hlen] at h3
            simp [banner] at h3
          · rw [if_neg hlen] at h3
            simp at h3
  · intro p
    cases hp : env.probeRes j with
    | ok =>
      rw [show (runStep env j (Step.probe c p)).1 =
          [Event.spawned j c, Event.okMsg "Server responds to /healthz",
           Event.termWaited j c] from by simp [runStep, hp]]
      rfl
    | fail =>
      rw [show (runStep env j (Step.probe c p)).1 =
          [Event.spawned j c, Event.warnMsg "Server health check failed",
           Event.termWaited j c] from by simp [runStep, hp]]
      rfl
    | exc =>
      rw [show (runStep env j (Step.probe c p)).1 =
          [Event.spawned j c, Event.warnMsg "Server health check failed",
           Event.termWaited j c] from by simp [runStep, hp]]
      rfl

/-- Witness for C4: in the all-success world the go server spawned by the
probe is terminated and waited on within the same invocation. -/
theorem probe_terminates_spawned_witness :
    Event.termWaited TKey.go "./bin/test-go-service server --addr :18080" ∈
      (validateCmd envAllOk (some TKey.go)).1 :=
  (probe_terminates_spawned envAllOk (some TKey.go) TKey.go
    "./bin/test-go-service server --addr :18080").1 (by decide)

/-- C5: probe outcomes never influence the exit code, and a non-ok probe
result produces exactly a warning event between spawn and terminate, with
the step reporting no fatal abort, so validation continues. -/
theorem probe_failure_warns (env : Env) (only : Option TKey) (p : TKey → ProbeRes)
    (k : TKey) (c : String) (prt : Nat) :
    (validateCmd { env with probeRes := p } only).2 = (validateCmd env only).2 ∧
    (env.probeRes k ≠ ProbeRes.ok →
      runStep env k (Step.probe c prt) =
        ([Event.spawned k c, Event.warnMsg "Server health check failed",
          Event.termWaited k c], false)) := by
  refine ⟨validateCmd_snd_probe_independent env p only, ?_⟩
  intro hne
  cases hp : env.probeRes k with
  | ok => exact absurd hp hne
  | fail => simp [runStep, hp]
  | exc => simp [runStep, hp]

/-- Witness for C5: with every probe failing, the exit code matches the one
with every probe succeeding, and the failed python-service probe step yields
a warning and no abort. -/
theorem probe_failure_warns_witness :
    (validateCmd { envProbeFail with probeRes := fun _ => ProbeRes.ok } none).2 =
      (validateCmd envProbeFail none).2 ∧
    runStep envProbeFail TKey.python
        (Step.probe "uv run uvicorn server.main:app --host 0.0.0.0 --port 18000"
          18000) =
      ([Event.spawned TKey.python
          "uv run uvicorn server.main:app --host 0.0.0.0 --port 18000",
        Event.warnMsg "Server health check failed",
        Event.termWaited TKey.python
          "uv run uvicorn server.main:app --host 0.0.0.0 --port 18000"],
       false) := by
  obtain ⟨h1, h2⟩ := probe_failure_warns envProbeFail none (fun _ => ProbeRes.ok)
    TKey.python "uv run uvicorn server.main:app --host 0.0.0.0 --port 18000" 18000
  exact ⟨h1, h2 (by decide)⟩

/-- C6: the final banner is printed exactly when more than one template was
selected and the invocation finished with exit code 0; with `--only` the
banner is never printed. -/
theorem banner_iff_multi_and_pass (env : Env) (only : Option TKey) :
    (banner ∈ (validateCmd env only).1 ↔
      1 < (selected only).length ∧ (validateCmd env only).2 = 0) ∧
    ∀ k : TKey, banner ∉ (validateCmd env (some k)).1 := by
  refine ⟨banner_mem_validateCmd env only, ?_⟩
  intro k hb
  have h := (banner_mem_validateCmd env (some k)).mp hb
  exact absurd h.1 (by simp [selected])

/-- Witness for C6: the all-success full run prints the banner, and the
single-template run does not. -/
theorem banner_iff_multi_and_pass_witness :
    banner ∈ (validateCmd envAllOk none).1 ∧
    banner ∉ (validateCmd envAllOk (some TKey.cli)).1 :=
  ⟨(banner_iff_multi_and_pass envAllOk none).1.mpr ⟨by decide, by decide⟩,
   (banner_iff_multi_and_pass envAllOk none).2 TKey.cli⟩

/-- C7: `clean` always exits 0, removes the output root, never touches the
rest of the filesystem, and a second run returns the same state with exit 0. -/
theorem clean_always_zero_idempotent (fs : FS) :
    (cleanCmd fs).2 = 0 ∧
    (cleanCmd fs).1.outputRootExists = false ∧
    (cleanCmd fs).1.elsewhere = fs.elsewhere ∧
    cleanCmd (cleanCmd fs).1 = ((cleanCmd fs).1, 0) := by
  cases hb : fs.outputRootExists <;> simp [cleanCmd, hb]

/-- C8: `simple.py hello` prints the greeting built from the name; with
`--name World` that is exactly `Hello, World!`, and the default name is
`world`. -/
theorem hello_greeting :
    helloOutput "World" = "Hello, World!" ∧
    (∀ n : String, helloOutput n = "Hello, " ++ n ++ "!") ∧
    helloDefaultName = "world" :=
  ⟨rfl, fun _ => rfl, rfl⟩

/-- C9: `delete_experiment` returns True exactly when the name is present,
afterwards the name resolves to nothing, and every other name still resolves
to exactly what it did before (also when the delete returned False). -/
theorem delete_experiment_correct (s : ExperimentStore) (n : String) :
    ((deleteExperiment s n).2 = true ↔ ∃ e ∈ listExperiments s, e.name = n) ∧
    getExperiment (deleteExperiment s n).1 n = none ∧
    ∀ m : String, m ≠ n →
      getExperiment (deleteExperiment s n).1 m = getExperiment s m := by
  by_cases hp : List.any s (fun x => x.name == n) = true
  · have hd : deleteExperiment s n =
        (List.filter (fun x => !(x.name == n)) s, true) := by
      simp [deleteExperiment, hp]
    rw [hd]
    refine ⟨?_, ?_, ?_⟩
    · constructor
      · intro _
        obtain ⟨x, hx, hxn⟩ := List.any_eq_true.mp hp
        exact ⟨x, hx, by simpa using hxn⟩
      · intro _
        rfl
    · exact find?_name_filter_self s n
    · intro m hm
      exact find?_name_filter_ne s n m hm
  · have hpf : List.any s (fun x => x.name == n) = false :=
      Bool.eq_false_iff.mpr hp
    have hd : deleteExperiment s n = (s, false) := by
      simp [deleteExperiment, hpf]
    rw [hd]
    refine ⟨?_, ?_, fun m _ => rfl⟩
    · constructor
      · intro hft
        exact absurd hft (by simp)
      · intro ⟨e, he, hen⟩
        exfalso
        exact hp (List.any_eq_true.mpr ⟨e, he, by simp [hen]⟩)
    · show List.find? (fun e => e.name == n) s = none
      apply List.find?_eq_none.mpr
      intro x hx hxn
      exact hp (List.any_eq_true.mpr ⟨x, hx, hxn⟩)

/-- Witness for C9: deleting `a` from a two-experiment store returns True,
makes `a` unresolvable and leaves `b` untouched. -/
theorem delete_experiment_correct_witness :
    (deleteExperiment [expA, expB] "a").2 = true ∧
    getExperiment (deleteExperiment [expA, expB] "a").1 "a" = none ∧
    getExperiment (deleteExperiment [expA, expB] "a").1 "b" = some expB := by
  obtain ⟨h1, h2, h3⟩ := delete_experiment_correct [expA, expB] "a"
  refine ⟨h1.mpr ⟨expA, by decide, by decide⟩, h2, ?_⟩
  rw [h3 "b" (by decide)]
  decide

/-- C10: after `save_experiment`, the experiment resolves under its name and
appears in the listing; saving over an existing name replaces in place
(store size unchanged, one more entry only for a new name), and saving the
same experiment twice equals saving it once. -/
theorem save_experiment_correct (s : ExperimentStore) (e : Experiment) :
    getExperiment (saveExperiment s e) e.name = some e ∧
    e ∈ listExperiments (saveExperiment s e) ∧
    saveExperiment (saveExperiment s e) e = saveExperiment s e ∧
    (listExperiments (saveExperiment s e)).length =
      (if List.any s (fun x => x.name == e.name) then (listExperiments s).length
       else (listExperiments s).length + 1) := by
  by_cases hp : List.any s (fun x => x.name == e.name) = true
  · have hs : saveExperiment s e =
        List.map (fun x => if x.name == e.name then e else x) s :=
      saveExperiment_of_any s e hp
    obtain ⟨x, hx, hxn⟩ := List.any_eq_true.mp hp
    have hmem : e ∈ List.map (fun x => if x.name == e.name then e else x) s :=
      List.mem_map.mpr ⟨x, hx, by rw [if_pos hxn]⟩
    refine ⟨?_, ?_, ?_, ?_⟩
    · rw [hs]
      exact find?_map_replace s e hp
    · show e ∈ saveExperiment s e
      rw [hs]
      exact hmem
    · have hp2 : List.any (saveExperiment s e) (fun x => x.name == e.name) = true := by
        rw [hs]
        exact List.any_eq_true.mpr ⟨e, hmem, by simp⟩
      have hs2 : saveExperiment (saveExperiment s e) e =
          List.map (fun x => if x.name == e.name then e else x) (saveExperiment s e) :=
        saveExperiment_of_any (saveExperiment s e) e hp2
      rw [hs2, hs, List.map_map]
      refine List.map_congr_left ?_
      intro a _
      show (fun y => if y.name == e.name then e else y)
          (if a.name == e.name then e else a) = _
      by_cases ha : a.name = e.name <;> simp [ha]
    · show (saveExperiment s e).length = _
      rw [hs]
      simp [hp, listExperiments]
  · have hpf : List.any s (fun x => x.name == e.name) = false :=
      Bool.eq_false_iff.mpr hp
    have hs : saveExperiment s e = s ++ [e] := by
      simp [saveExperiment, hpf]
    refine ⟨?_, ?_, ?_, ?_⟩
    · rw [hs]
      show List.find? (fun x => x.name == e.name) (s ++ [e]) = some e
      rw [List.find?_append]
      have h1 : List.find? (fun x => x.name == e.name) s = none := by
        apply List.find?_eq_none.mpr
        intro x hx hxn
        exact hp (List.any_eq_true.mpr ⟨x, hx, hxn⟩)
      rw [h1]
      simp
    · show e ∈ saveExperiment s e
      rw [hs]
      simp
    · have hp2 : List.any (saveExperiment s e) (fun x => x.name == e.name) = true := by
        rw [hs]
        exact List.any_eq_true.mpr ⟨e, by simp, by simp⟩
      have hs2 : saveExperiment (saveExperiment s e) e =
          List.map (fun x => if x.name == e.name then e else x) (saveExperiment s e) :=
        saveExperiment_of_any (saveExperiment s e) e hp2
      rw [hs2, hs, List.map_append, map_replace_of_not_any s e hpf]
      simp
    · show (saveExperiment s e).length = _
      rw [hs]
      simp [hpf, listExperiments]

end LlmsRules
